import Mathlib

/-!
Verification of the google-fzf search-engine core against its specification.

The development shallowly embeds the JavaScript sources in Lean 4:
JS numbers are modelled as exact rationals (`ℚ`), JS strings as Lean
`String`s, `Date.now()` timestamps as rationals (milliseconds), and the
mutable objects (`RateLimiter`, the embedding cache, the content search
manager) as explicit state records threaded through the functions.
`tf.sqrt`-based norms are modelled by an abstract square-root function
`sqrtF : ℚ → ℚ` supplied as part of the environment, since TensorFlow's
floating-point square root is an external primitive.  Where a routine
carries the sources' `isNaN(x) ? 0 : x` guard, its guarded `0/0` is rendered
by Lean's `q / 0 = 0` convention; the unguarded batched similarity instead
returns values in `JsNum`, which tracks NaN and infinities explicitly.
-/

set_option allowUnsafeReducibility true
attribute [local semireducible] Rat.add Rat.mul Rat.sub Rat.inv Rat.ofScientific
set_option maxRecDepth 8000

namespace GoogleFzf

/-! ## JavaScript string primitives used by the sources -/

/-- Model of JS `String.prototype.toLowerCase` (ASCII-faithful). -/
def jsToLower (s : String) : String := String.mk (s.data.map Char.toLower)

/-- Helper for `jsSplitWs`: walks the character list accumulating the current
piece (reversed in `acc`); a whitespace character seals the piece, and the
flag `inRun` records that the previous character was whitespace, so that a
run of whitespace acts as a single separator. -/
def jsSplitWsAux : Bool → List Char → List Char → List String
  | _, [], acc => [String.mk acc.reverse]
  | inRun, c :: cs, acc =>
    if c.isWhitespace then
      if inRun then jsSplitWsAux true cs acc
      else String.mk acc.reverse :: jsSplitWsAux true cs []
    else jsSplitWsAux false cs (c :: acc)

/-- Model of JS `str.split(/\s+/)`: pieces between maximal whitespace runs,
keeping an empty leading piece when the string starts with whitespace and an
empty trailing piece when it ends with whitespace. -/
def jsSplitWs (s : String) : List String := jsSplitWsAux false s.data []

/-- Helper for `jsIndexOfFrom`: first position at or after `i` where `sub`
is a prefix of the remaining characters, `-1` if none. -/
def jsIndexOfAux (sub : List Char) : List Char → ℕ → ℤ
  | l, i =>
    if sub.isPrefixOf l then (i : ℤ)
    else
      match l with
      | [] => -1
      | _ :: tl => jsIndexOfAux sub tl (i + 1)

/-- Model of JS `str.indexOf(sub, from)` (negative `from` clamps to 0, a
`from` beyond the length clamps to the length). -/
def jsIndexOfFrom (s sub : String) (fromIdx : ℤ) : ℤ :=
  let start : ℕ := min fromIdx.toNat s.length
  jsIndexOfAux sub.data (s.data.drop start) start

/-- Model of JS `String.prototype.includes`: a contiguous occurrence exists,
i.e. `s.indexOf(sub, 0) !== -1`. -/
def jsIncludes (s sub : String) : Bool := decide (jsIndexOfFrom s sub 0 ≠ -1)

/-! ## src/utils/rateLimiter.js -/

/-- State of the token-bucket rate limiter (`class RateLimiter`). -/
structure RateLimiter where
  tokens : ℚ
  maxTokens : ℚ
  lastRefill : ℚ
  refillTime : ℚ
deriving DecidableEq

/-- The `RateLimiter` constructor: `new RateLimiter(maxRequests, perMinutes)`
at wall-clock time `now`. -/
def RateLimiter.init (maxRequests perMinutes : ℚ) (now : ℚ) : RateLimiter :=
  { tokens := maxRequests
    maxTokens := maxRequests
    lastRefill := now
    refillTime := perMinutes * 60 * 1000 }

/-- Model of `RateLimiter.refill`: adds `floor(elapsed / refillTime) *
maxTokens` tokens, clamped at `maxTokens`, and unconditionally sets
`lastRefill = now`. -/
def RateLimiter.refill (rl : RateLimiter) (now : ℚ) : RateLimiter :=
  let timePassed := now - rl.lastRefill
  let refillTokens : ℚ := (⌊timePassed / rl.refillTime⌋ : ℤ) * rl.maxTokens
  { rl with tokens := min rl.maxTokens (rl.tokens + refillTokens), lastRefill := now }

/-- Model of `RateLimiter.tryAcquire`: refill, then take a token when
`tokens > 0`. -/
def RateLimiter.tryAcquire (rl : RateLimiter) (now : ℚ) : Bool × RateLimiter :=
  let rl := rl.refill now
  if rl.tokens > 0 then (true, { rl with tokens := rl.tokens - 1 })
  else (false, rl)

/-- Second component of `tryAcquire` (the successor state). -/
def RateLimiter.acquireState (rl : RateLimiter) (now : ℚ) : RateLimiter :=
  (rl.tryAcquire now).2

/-- The bucket of the content script (`new RateLimiter(10, 1)`) created at
time 0 and then drained by ten `tryAcquire()` calls at `t = 0`. -/
def drainedBucket : RateLimiter :=
  (fun rl => rl.acquireState 0)^[10] (RateLimiter.init 10 1 0)

/-! ## src/models/model.js — vectors, tokenizer, embedding cache, similarity -/

/-- Dot product of two rational vectors (`tf.dot` / the row–vector products
inside `tf.matMul`). -/
def dot (a b : List ℚ) : ℚ := (List.zipWith (· * ·) a b).sum

/-- Componentwise vector addition. -/
def vadd (a b : List ℚ) : List ℚ := List.zipWith (· + ·) a b

/-- Scalar multiple of a vector. -/
def vscale (c : ℚ) (v : List ℚ) : List ℚ := v.map (fun x => c * x)

/-- Model of `tf.concat(...).mean(0)`: the componentwise arithmetic mean of a
non-empty list of vectors (the empty case never arises in the sources). -/
def vmean : List (List ℚ) → List ℚ
  | [] => []
  | v :: vs => vscale (1 / (((v :: vs).length : ℕ) : ℚ)) (vs.foldl vadd v)

/-- The `VOCAB_SIZE` constant of `model.js` and `search.worker.js`. -/
def vocabSize : ℕ := 15000

/-- Loaded resources and floating-point primitives of the similarity engine:
the `vocabulary` word→index map, the embedding-matrix rows, and the
square-root function used inside `tf.norm` (an external TensorFlow
primitive, hence a parameter of the model). -/
structure EmbedEnv where
  wordToIndex : String → Option ℕ
  rows : List (List ℚ)
  sqrtF : ℚ → ℚ

/-- Model of `SimilaritySearch.tokenize` (also `tokenize` in the worker):
lowercase, strip characters outside `[a-z0-9\s]`, split on whitespace runs,
drop tokens of length at most 2. -/
def tokenize (text : String) : List String :=
  let cleaned := String.mk ((jsToLower text).data.filter
    (fun c => decide (('a' ≤ c ∧ c ≤ 'z') ∨ ('0' ≤ c ∧ c ≤ '9')) || c.isWhitespace))
  (jsSplitWs cleaned).filter (fun w => decide (2 < w.length))

/-- The embedding cache (`this.cache` / `embeddingCache`): an insertion-ordered
association list from text to its cached mean-embedding vector. -/
abbrev Cache : Type := List (String × List ℚ)

/-- Lookup in the embedding cache (`cache.has` / `cache.get`). -/
def lookupC : Cache → String → Option (List ℚ)
  | [], _ => none
  | (k, v) :: rest, t => if k = t then some v else lookupC rest t

/-- The `validIndices` computation of `getTextEmbedding`: tokens mapped
through the vocabulary, keeping defined indices below `VOCAB_SIZE`. -/
def validIndices (env : EmbedEnv) (text : String) : List ℕ :=
  ((tokenize text).filterMap env.wordToIndex).filter (fun i => decide (i < vocabSize))

/-- Model of `getTextEmbedding` (identical in `model.js` and the worker):
return the cached vector on a hit; otherwise clear the whole cache when its
size exceeds 1000, then either fail (no recognised token) or compute the mean
of the matching embedding rows and append it to the cache. -/
def getTextEmbedding (env : EmbedEnv) (cache : Cache) (text : String) :
    Option (List ℚ) × Cache :=
  match lookupC cache text with
  | some v => (some v, cache)
  | none =>
    let cache : Cache := if 1000 < (cache : List (String × List ℚ)).length then [] else cache
    match validIndices env text with
    | [] => (none, cache)
    | i :: is =>
      let mean := vmean ((i :: is).map (fun j => env.rows.getD j []))
      (some mean, cache ++ [(text, mean)])

/-- Model of `SimilaritySearch.splitIntoChunks`'s grouping: consecutive
groups of `n` elements (`words.slice(i, i + chunkSize)` for `i = 0, n, 2n, …`). -/
def groupsOfGo (n : ℕ) : List α → ℕ → List α → List (List α)
  | [], _, acc => if acc.isEmpty then [] else [acc.reverse]
  | a :: l, k, acc =>
    if k ≤ 1 then (a :: acc).reverse :: groupsOfGo n l n []
    else groupsOfGo n l (k - 1) (a :: acc)

/-- Groups of `n` consecutive elements (`words.slice(i, i + chunkSize)` for
`i = 0, n, 2n, …`). -/
def groupsOf (n : ℕ) (l : List α) : List (List α) := groupsOfGo n l n []

/-- Model of `SimilaritySearch.splitIntoChunks`: lowercase, split into words,
join consecutive groups of `chunkSize` words with single spaces. -/
def splitIntoChunks (text : String) (chunkSize : ℕ) : List String :=
  let words := (jsSplitWs (jsToLower text)).filter (fun w => decide (0 < w.length))
  (groupsOf chunkSize words).map (fun g => String.intercalate " " g)

/-- Model of `SimilaritySearch.cosineSimilarity` (and the worker's
`getSimilarity` core), which carries the `isNaN(similarity) ? 0 : similarity`
guard in the source: `dot(e1, e2) / (‖e1‖ ‖e2‖)` with the guarded `0/0`
rendered by Lean's `q / 0 = 0` convention (with a genuine square root a zero
norm product forces a zero dot product, so `0/0` is the only non-finite case
this guarded routine can hit). -/
def cosineSimilarity (sqrtF : ℚ → ℚ) (e1 e2 : List ℚ) : ℚ :=
  dot e1 e2 / (sqrtF (dot e1 e1) * sqrtF (dot e2 e2))

/-- The value of one JS floating-point similarity: a finite number, an
infinity, or NaN. -/
inductive JsNum
  | nan
  | inf (pos : Bool)
  | val (q : ℚ)
deriving DecidableEq

/-- Model of JS division on similarity values: `0/0` is NaN, `x/0` for
`x ≠ 0` is a signed infinity, otherwise the exact quotient. -/
def jsDivNum (a b : ℚ) : JsNum :=
  if b = 0 then (if a = 0 then .nan else .inf (decide (0 < a)))
  else .val (a / b)

/-- Model of the `isNaN(x) ? 0 : x` guard of the pairwise routines. -/
def isNaNGuard : JsNum → JsNum
  | .nan => .val 0
  | x => x

/-- Model of the JS comparison `sim > threshold` on a similarity value:
false for NaN, true only for a positive infinity, exact comparison
otherwise. -/
def jsGtThreshold (s : JsNum) (threshold : ℚ) : Bool :=
  match s with
  | .nan => false
  | .inf pos => pos
  | .val q => decide (threshold < q)

/-- Model of `SimilaritySearch.batchCosineSimilarity`: one matrix–vector
product (`tf.matMul(batch, embedding)`) divided per row by
`‖row‖ · ‖embedding‖`.  Unlike the pairwise `cosineSimilarity`, the source
has NO `isNaN` guard here, so a zero row (or zero embedding) yields NaN,
tracked by `JsNum`. -/
def batchCosineSimilarity (sqrtF : ℚ → ℚ) (embedding : List ℚ)
    (batch : List (List ℚ)) : List JsNum :=
  batch.map (fun row =>
    jsDivNum (dot row embedding) (sqrtF (dot row row) * sqrtF (dot embedding embedding)))

/-- The pairwise cosine-similarity value at the `JsNum` level, guard
included, exactly as `SimilaritySearch.cosineSimilarity` computes it:
`dot / (‖e1‖ ‖e2‖)` followed by the `isNaN` normalisation. -/
def cosineSimilarityNum (sqrtF : ℚ → ℚ) (e1 e2 : List ℚ) : JsNum :=
  isNaNGuard (jsDivNum (dot e1 e2) (sqrtF (dot e1 e1) * sqrtF (dot e2 e2)))

/-- Model of `SimilaritySearch.findSimilar`: embed the query, embed the
50-word sub-chunks of the page text (threading the cache), and report whether
any batched similarity exceeds the threshold (`similarities.some(sim => sim >
threshold)`, where a NaN from the unguarded batch routine compares false). -/
def findSimilar (env : EmbedEnv) (cache : Cache) (searchText pageText : String)
    (threshold : ℚ := 8 / 10) : Bool × Cache :=
  match getTextEmbedding env cache searchText with
  | (none, c) => (false, c)
  | (some q, c) =>
    let chunks := splitIntoChunks pageText 50
    let embsC := chunks.foldl (fun (acc : List (List ℚ) × Cache) ch =>
        match getTextEmbedding env acc.2 ch with
        | (some e, c2) => (acc.1 ++ [e], c2)
        | (none, c2) => (acc.1, c2)) ([], c)
    match embsC.1 with
    | [] => (false, embsC.2)
    | _ => ((batchCosineSimilarity env.sqrtF q embsC.1).any
        (fun s => jsGtThreshold s threshold), embsC.2)

/-- A sequence of `getTextEmbedding` calls (embed calls) threading the cache. -/
def embedMany (env : EmbedEnv) (texts : List String) (cache : Cache) : Cache :=
  texts.foldl (fun c t => (getTextEmbedding env c t).2) cache

/-- An environment for concrete runs: every word maps to vocabulary index 0,
with a single one-dimensional embedding row, and the identity standing in for
the square root (exact on the norms arising in the runs, which are all 1). -/
def envAll : EmbedEnv := ⟨fun _ => some 0, [[1]], id⟩

/-- Texts for the overflow run: 1001 pairwise distinct strings, runs of the
letter `a` of lengths 3 … 1003, each of which tokenizes to one recognised
token. -/
def texts1001 : List String :=
  (List.range 1001).map (fun i => String.mk (List.replicate (i + 3) 'a'))

/-! ## src/workers/search.worker.js — relevance scorer and worker search -/

/-- The `foundInOrder` loop of `calculateRelevanceScore`: scan the query
terms left to right with `indexOf(term, lastIndex + 1)`, failing when a term
is missing (or would not advance the position). -/
def foundInOrderAux (textLower : String) : List String → ℤ → Bool
  | [], _ => true
  | term :: ts, lastIndex =>
    let index := jsIndexOfFrom textLower term (lastIndex + 1)
    if index = -1 ∨ index ≤ lastIndex then false
    else foundInOrderAux textLower ts index

/-- Model of the worker's `calculateRelevanceScore`: base similarity, plus
0.2 for a verbatim case-insensitive occurrence of the query, plus 0.3 times
the query-word overlap ratio (over the deduplicated word sets), minus 0.1
times the length penalty, plus 0.25 when a multi-term query's terms all occur
in order. -/
def calculateRelevanceScore (chunkText query : String) (similarity : ℚ) : ℚ :=
  let score₁ :=
    if jsIncludes (jsToLower chunkText) (jsToLower query) then similarity + 2 / 10
    else similarity
  let queryWords := (jsSplitWs (jsToLower query)).dedup
  let chunkWords := (jsSplitWs (jsToLower chunkText)).dedup
  let overlap := (queryWords.filter (fun w => decide (w ∈ chunkWords))).length
  let overlapScore : ℚ := (overlap : ℚ) / (queryWords.length : ℚ)
  let score₂ := score₁ + overlapScore * (3 / 10)
  let idealLength : ℚ := (query.length : ℚ) * 5
  let lengthDiff : ℚ := |(chunkText.length : ℚ) - idealLength| / idealLength
  let score₃ := score₂ - lengthDiff * (1 / 10)
  let queryTerms := jsSplitWs (jsToLower query)
  if 1 < queryTerms.length then
    if foundInOrderAux (jsToLower chunkText) queryTerms (-1) then score₃ + 1 / 4 else score₃
  else score₃

/-- The in-order condition of the specification's score formula: every query
term appears in the chunk text, in order, at strictly increasing positions —
realised by the same greedy leftmost scan the worker uses, which succeeds
exactly when such positions exist. -/
def specInOrder (chunkText query : String) : Bool :=
  foundInOrderAux (jsToLower chunkText) (jsSplitWs (jsToLower query)) (-1)

/-- The composite score formula exactly as claim C7 states it: the 0.25
in-order bonus applies whenever every query term appears in order, including
single-term queries. -/
def claimedRelevanceScore (chunkText query : String) (s : ℚ) : ℚ :=
  s + (if jsIncludes (jsToLower chunkText) (jsToLower query) then 2 / 10 else 0)
    + 3 / 10 * ((((jsSplitWs (jsToLower query)).dedup.filter
        (fun w => decide (w ∈ (jsSplitWs (jsToLower chunkText)).dedup))).length : ℚ) /
        (((jsSplitWs (jsToLower query)).dedup.length : ℕ) : ℚ))
    - 1 / 10 * (|(chunkText.length : ℚ) - (query.length : ℚ) * 5| / ((query.length : ℚ) * 5))
    + (if specInOrder chunkText query then 1 / 4 else 0)

/-- The composite score formula with the in-order bonus restricted to
multi-term queries, which is what the code computes. -/
def amendedRelevanceScore (chunkText query : String) (s : ℚ) : ℚ :=
  s + (if jsIncludes (jsToLower chunkText) (jsToLower query) then 2 / 10 else 0)
    + 3 / 10 * ((((jsSplitWs (jsToLower query)).dedup.filter
        (fun w => decide (w ∈ (jsSplitWs (jsToLower chunkText)).dedup))).length : ℚ) /
        (((jsSplitWs (jsToLower query)).dedup.length : ℕ) : ℚ))
    - 1 / 10 * (|(chunkText.length : ℚ) - (query.length : ℚ) * 5| / ((query.length : ℚ) * 5))
    + (if 1 < (jsSplitWs (jsToLower query)).length ∧ specInOrder chunkText query then 1 / 4 else 0)

/-- A document chunk as the content script builds it: the concatenated chunk
text together with the own-texts of the underlying text units (the
`textContent` of the spans or text nodes the chunk was built from). -/
structure Chunk where
  text : String
  units : List String
deriving DecidableEq

/-- A worker search result (`{ ...chunk, score, context }`). -/
structure ResultEntry where
  chunk : Chunk
  score : ℚ
  context : String
deriving DecidableEq

/-- Model of the worker's `getSimilarity`: embed the chunk text (through the
cache) and take the cosine similarity against the query embedding, 0 when the
text has no embedding. -/
def getSimilarity (env : EmbedEnv) (cache : Cache) (qe : List ℚ) (text : String) :
    ℚ × Cache :=
  match getTextEmbedding env cache text with
  | (none, c) => (0, c)
  | (some te, c) => (cosineSimilarity env.sqrtF qe te, c)

/-- Model of JS `array.slice(start, end)` for non-negative clamped indices. -/
def jsSlice (l : List α) (s e : ℤ) : List α :=
  (l.drop s.toNat).take (e - s).toNat

/-- The surrounding-context computation of the worker's `performSearch`. -/
def workerContext (chunkText query : String) : String :=
  let chunkWords := jsSplitWs chunkText
  let matchIndex := jsIndexOfFrom (jsToLower chunkText) (jsToLower query) 0
  let contextStart := max 0 (matchIndex - 10)
  let contextEnd := min (chunkWords.length : ℤ) (matchIndex + 10)
  String.intercalate " " (jsSlice chunkWords contextStart contextEnd)

/-- Stable insertion of a result into a list sorted by descending score
(model of `results.sort((a, b) => b.score - a.score)`). -/
def insertByScore (r : ResultEntry) : List ResultEntry → List ResultEntry
  | [] => [r]
  | x :: xs => if x.score < r.score then r :: x :: xs else x :: insertByScore r xs

/-- Stable sort by descending score. -/
def sortByScoreDesc (l : List ResultEntry) : List ResultEntry :=
  l.foldr insertByScore []

/-- The per-chunk body of the worker's `performSearch` loop: skip chunks that
contain no term of a multi-word query, then admit a chunk only when the base
similarity and then the composite relevance score both exceed the 0.8
threshold. -/
def workerStep (env : EmbedEnv) (query : String) (qe : List ℚ)
    (isMultiWord : Bool) (queryTerms : List String)
    (acc : List ResultEntry × Cache) (c : Chunk) : List ResultEntry × Cache :=
  if isMultiWord ∧ ¬ queryTerms.any (fun t => jsIncludes (jsToLower c.text) t) then acc
  else
    let simC := getSimilarity env acc.2 qe c.text
    if 8 / 10 < simC.1 then
      let score := calculateRelevanceScore c.text query simC.1
      if 8 / 10 < score then
        (acc.1 ++ [⟨c, score, workerContext c.text query⟩], simC.2)
      else (acc.1, simC.2)
    else (acc.1, simC.2)

/-- Model of the worker's `performSearch`: embed the query, filter and score
each chunk, then sort the admitted results by descending score and keep the
first `MAX_RESULTS = 50`. -/
def performSearch (env : EmbedEnv) (query : String) (chunks : List Chunk)
    (cache : Cache) : List ResultEntry × Cache :=
  match getTextEmbedding env cache query with
  | (none, c) => ([], c)
  | (some qe, c) =>
    let queryTerms := jsSplitWs (jsToLower query)
    let isMultiWord := decide (1 < queryTerms.length)
    let rc := chunks.foldl (workerStep env query qe isMultiWord queryTerms) ([], c)
    ((sortByScoreDesc rc.1).take 50, rc.2)

/-! ## src/utils/sanitizer.js and src/content/content.js -/

/-- Model of JS `String.prototype.trim`: drop whitespace from both ends. -/
def jsTrim (s : String) : String :=
  String.mk (((s.data.dropWhile Char.isWhitespace).reverse.dropWhile Char.isWhitespace).reverse)

/-- Model of `sanitizeInput`: strip angle brackets, then trim. -/
def sanitizeInput (input : String) : String :=
  jsTrim (String.mk (input.data.filter (fun c => decide (c ≠ '<' ∧ c ≠ '>'))))

/-- The error conditions `ContentSearchManager.search` can raise. -/
inductive SearchError
  | rateLimitExceeded
  | patternTooLong
  | patternTooShort
deriving DecidableEq

/-- Model of `validateSearchPattern`: reject patterns longer than 100 or
shorter than 2 characters. -/
def validateSearchPattern (pattern : String) : Except SearchError String :=
  if 100 < pattern.length then .error .patternTooLong
  else if pattern.length < 2 then .error .patternTooShort
  else .ok pattern

/-- The three search modes of `ContentSearchManager.search`. -/
inductive Mode
  | semantic
  | exact
  | fuzzy
deriving DecidableEq

/-- An entry of `this.currentMatches`: the chunk, and for exact mode the
`matchedElements` narrowed to the units whose own text contains the query. -/
structure MatchEntry where
  chunk : Chunk
  matchedElements : Option (List String)
deriving DecidableEq

/-- The mutable state of `ContentSearchManager` (along with the DOM highlight
set maintained through `highlight` / `clearHighlights`). -/
structure SearchState where
  rateLimiter : RateLimiter
  cache : Cache
  currentMatches : List MatchEntry
  currentMatchIndex : ℤ
  isSearching : Bool
  highlightElements : List String
  domHighlights : List String
deriving DecidableEq

/-- The outcome object returned by `ContentSearchManager.search`. -/
structure SearchResult where
  matchCount : ℕ
  currentIndex : ℤ
  totalMatches : ℕ
deriving DecidableEq

/-- The exact-mode test for one chunk: a chunk-level case-insensitive
substring hit, narrowed to the units whose own text contains the query; the
chunk is recorded only when at least one unit survives the narrowing. -/
def exactStep (queryLower : String) (c : Chunk) : Option MatchEntry :=
  if jsIncludes (jsToLower c.text) queryLower then
    let elementsToHighlight := c.units.filter (fun u => jsIncludes (jsToLower u) queryLower)
    if 0 < elementsToHighlight.length then some ⟨c, some elementsToHighlight⟩ else none
  else none

/-- One iteration of the non-fuzzy chunk loop of `ContentSearchManager.search`
(for `mode = exact` or `mode = semantic`); fuzzy mode never reaches this
loop. -/
def searchStepChunk (env : EmbedEnv) (query : String) (mode : Mode) (c : Chunk)
    (st : SearchState) : SearchState :=
  match mode with
  | .exact =>
    match exactStep (jsToLower (sanitizeInput query)) c with
    | some e =>
      let els := e.matchedElements.getD []
      { st with currentMatches := st.currentMatches ++ [e]
                highlightElements := st.highlightElements ++ els
                domHighlights := st.domHighlights ++ els }
    | none => st
  | .semantic =>
    let fs := findSimilar env st.cache (sanitizeInput query) c.text
    let st := { st with cache := fs.2 }
    if fs.1 then
      { st with currentMatches := st.currentMatches ++ [⟨c, none⟩]
                highlightElements := st.highlightElements ++ c.units
                domHighlights := st.domHighlights ++ c.units }
    else st
  | .fuzzy => st

/-- The fuzzy-branch loop body of `ContentSearchManager.search`: push each
Fuse result's chunk and highlight all its units. -/
def fuzzyPush (st : SearchState) (r : Chunk × ℚ) : SearchState :=
  { st with currentMatches := st.currentMatches ++ [(⟨r.1, none⟩ : MatchEntry)]
            highlightElements := st.highlightElements ++ r.1.units
            domHighlights := st.domHighlights ++ r.1.units }

/-- The chunk loop of `ContentSearchManager.search` with its cancellation
check: the `CANCEL_SEARCH` handler may run between iterations — it sets
`isSearching = false`, clears the DOM highlights (`clearHighlights()`), and
disposes the similarity engine, emptying the embedding cache
(`similaritySearch.dispose()`) — modelled by the index `cancelAt` at which
the cancellation message is observed; the loop breaks as soon as
`isSearching` is false. -/
def searchLoop (step : Chunk → SearchState → SearchState) (cancelAt : Option ℕ) :
    List Chunk → ℕ → SearchState → SearchState
  | [], _, st => st
  | c :: cs, i, st =>
    let st := if cancelAt = some i then
        { st with isSearching := false, domHighlights := [], cache := [] }
      else st
    if st.isSearching then searchLoop step cancelAt cs (i + 1) (step c st) else st

/-- The tail of `ContentSearchManager.search` after the mode loop: set
`currentMatchIndex = 0` when any match exists, return the counts, and let the
`finally` block reset `isSearching`. -/
def finishSearch (st : SearchState) : Except SearchError SearchResult × SearchState :=
  let st := if 0 < st.currentMatches.length then { st with currentMatchIndex := 0 } else st
  (.ok ⟨st.currentMatches.length, st.currentMatchIndex, st.currentMatches.length⟩,
    { st with isSearching := false })

/-- Model of `ContentSearchManager.search`.  The Fuse.js engine is an
external dependency, abstracted as the function `fuse` from the chunk list
and query to scored results; the content script configures it with
`includeScore: true`, `threshold: 0.4`, `shouldSort: false`.  Steps, in
source order: `tryAcquire` (a throw here skips the `try`/`finally`), clear
highlights and prior matches, sanitize, validate (a throw lands in `finally`,
which resets `isSearching`), set `isSearching`, run the mode's matcher over
the chunks, then set `currentMatchIndex = 0` when matches exist and report
the counts. -/
def ContentSearchManager.search (env : EmbedEnv)
    (fuse : List Chunk → String → List (Chunk × ℚ))
    (st : SearchState) (query : String) (mode : Mode)
    (chunks : List Chunk) (now : ℚ) (cancelAt : Option ℕ) :
    Except SearchError SearchResult × SearchState :=
  let acq := st.rateLimiter.tryAcquire now
  let st := { st with rateLimiter := acq.2 }
  if ¬ acq.1 then (.error .rateLimitExceeded, st)
  else
    let st := { st with domHighlights := []
                        currentMatches := []
                        currentMatchIndex := -1
                        highlightElements := [] }
    let sq := sanitizeInput query
    match validateSearchPattern sq with
    | .error e => (.error e, { st with isSearching := false })
    | .ok _ =>
      let st := { st with isSearching := true }
      let st :=
        match mode with
        | .fuzzy => (fuse chunks sq).foldl fuzzyPush st
        | _ => searchLoop (searchStepChunk env query mode) cancelAt chunks 0 st
      finishSearch st

/-- Model of `ContentSearchManager.nextMatch`: no-op when there are no
matches, otherwise advance `currentMatchIndex` cyclically (JS `%` is
truncating remainder). -/
def nextMatch (st : SearchState) : SearchState :=
  if st.currentMatches.length = 0 then st
  else { st with currentMatchIndex :=
    (st.currentMatchIndex + 1).tmod (st.currentMatches.length : ℤ) }

/-- Model of `ContentSearchManager.previousMatch`: no-op when there are no
matches, otherwise step `currentMatchIndex` back cyclically. -/
def previousMatch (st : SearchState) : SearchState :=
  if st.currentMatches.length = 0 then st
  else { st with currentMatchIndex :=
    ((st.currentMatches.length : ℤ) + st.currentMatchIndex - 1).tmod (st.currentMatches.length : ℤ) }

/-- The navigation invariant of the match list (spec §3). -/
def navInvariant (st : SearchState) : Prop :=
  (0 < st.currentMatches.length →
    0 ≤ st.currentMatchIndex ∧ st.currentMatchIndex < (st.currentMatches.length : ℤ)) ∧
  (st.currentMatches.length = 0 → st.currentMatchIndex = -1)

/-! ## Concrete instances used in counterexamples and witnesses -/

/-- A freshly constructed manager state: full bucket created at time 0, empty
cache, no matches, index −1, not searching, no highlights. -/
def initState : SearchState :=
  { rateLimiter := RateLimiter.init 10 1 0
    cache := []
    currentMatches := []
    currentMatchIndex := -1
    isSearching := false
    highlightElements := []
    domHighlights := [] }

/-- A Fuse.js stand-in returning no results (fuzzy mode unused). -/
def fuse0 : List Chunk → String → List (Chunk × ℚ) := fun _ _ => []

/-- The chunk of the C3 counterexample: its text contains the vocabulary
word `dog` followed by padding words outside the vocabulary, giving it the
query's exact embedding but a long text. -/
def chunkC3 : Chunk :=
  ⟨"dog zzzz zzzz zzzz zzzz zzzz zzzz zzzz zzzz zzzz", ["d1"]⟩

/-- The environment of the C3 counterexample: `cat` and `dog` are the
vocabulary, with identical unit embedding rows (so their cosine similarity is
exactly 1, and the identity is exact for the square root of the norms). -/
def envC3 : EmbedEnv :=
  ⟨fun s => if s = "cat" then some 0 else if s = "dog" then some 1 else none,
    [[1], [1]], id⟩

/-- Chunks for the C5 fuzzy-ordering counterexample. -/
def chunkA : Chunk := ⟨"alpha", ["alpha"]⟩

/-- Second chunk for the C5 fuzzy-ordering counterexample. -/
def chunkB : Chunk := ⟨"beta", ["beta"]⟩

/-- Third chunk for the C5 fuzzy-ordering counterexample. -/
def chunkC : Chunk := ⟨"gamma", ["gamma"]⟩

/-- A Fuse.js behaviour permitted by `shouldSort: false` (results in list
order, scores in `[0, threshold]`): the middle chunk scores worst and the
last chunk scores best (Fuse scores are better when lower). -/
def fuseCE : List Chunk → String → List (Chunk × ℚ) :=
  fun _ _ => [(chunkA, 2 / 10), (chunkB, 3 / 10), (chunkC, 1 / 10)]

/-- A chunk whose text and single unit contain "ab" (for the cancellation
run). -/
def chunkX : Chunk := ⟨"xx ab yy", ["ab"]⟩

/-- A second chunk containing "ab" (left unprocessed by the cancelled run). -/
def chunkY : Chunk := ⟨"ab zz", ["ab"]⟩

/-- The double acceptance gate of the worker's semantic search: the composite
score exceeds the 0.8 threshold, and the score was computed from a base
similarity that itself exceeds the threshold. -/
def doubleGated (query : String) (r : ResultEntry) : Prop :=
  8 / 10 < r.score ∧ ∃ s, 8 / 10 < s ∧ r.score = calculateRelevanceScore r.chunk.text query s

/-- Commutativity of the dot product. -/
theorem dot_comm (a b : List ℚ) : dot a b = dot b a := by
  unfold dot
  rw [List.zipWith_comm_of_comm]
  exact fun x y => mul_comm x y

/-- C9 counterexample: at the zero chunk vector `[0]` against the query
`[1]` (the identity is the exact square root of the norms 0 and 1 arising
here), the batched routine — which has no `isNaN` guard in the source —
yields NaN, while the pairwise `cosineSimilarity`'s guard yields 0.  The two
computations are not numerically equivalent at this input. -/
theorem batchCosineSimilarity_nan_vs_pairwise_zero :
    batchCosineSimilarity id [1] [[0]] = [JsNum.nan] ∧
    cosineSimilarityNum id [1] [0] = JsNum.val 0 ∧
    JsNum.nan ≠ JsNum.val 0 := by
  refine ⟨by decide, by decide, by decide⟩

/-- C9 amended: applying the pairwise routine's `isNaN` guard to the batched
similarities yields exactly the pairwise `cosineSimilarity` of the query
vector with each chunk vector (exact rational arithmetic, same abstract
square root on both sides).  So the two computations agree on every row
whose batched value is finite, and differ only where the dot product and the
norm product both vanish — there the unguarded batch routine yields NaN
where the pairwise routine yields 0. -/
theorem batchCosineSimilarity_guarded_eq_pairwise (sqrtF : ℚ → ℚ) (q : List ℚ)
    (batch : List (List ℚ)) :
    (batchCosineSimilarity sqrtF q batch).map isNaNGuard
      = batch.map (fun row => cosineSimilarityNum sqrtF q row) := by
  unfold batchCosineSimilarity cosineSimilarityNum
  rw [List.map_map]
  refine List.map_congr_left (fun row _ => ?_)
  show isNaNGuard (jsDivNum (dot row q) (sqrtF (dot row row) * sqrtF (dot q q)))
      = isNaNGuard (jsDivNum (dot q row) (sqrtF (dot q q) * sqrtF (dot row row)))
  rw [dot_comm row q, mul_comm (sqrtF (dot row row))]

/-! ## Cache-overflow behaviour of `getTextEmbedding` (claim C6) -/

/-- A text absent from the cache keys is a cache miss. -/
theorem lookupC_eq_none (cache : Cache) (t : String)
    (h : t ∉ cache.map Prod.fst) : lookupC cache t = none := by
  induction cache with
  | nil => rfl
  | cons p rest ih =>
    obtain ⟨k, v⟩ := p
    simp only [List.map_cons, List.mem_cons, not_or] at h
    simp only [lookupC]
    rw [if_neg (fun he : k = t => h.1 he.symm)]
    exact ih h.2

/-- On a miss with the cache at or below the cap and at least one recognised
token, `getTextEmbedding` appends exactly one entry. -/
theorem getTextEmbedding_snd_append (env : EmbedEnv) (cache : Cache) (t : String)
    (hmiss : lookupC cache t = none) (hsmall : ¬ 1000 < cache.length)
    (i : ℕ) (is : List ℕ) (hvi : validIndices env t = i :: is) :
    (getTextEmbedding env cache t).2 =
      cache ++ [(t, vmean ((i :: is).map (fun j => env.rows.getD j [])))] := by
  unfold getTextEmbedding
  rw [hmiss, if_neg hsmall, hvi]

/-- Inserting distinct, embeddable, previously uncached texts grows the cache
by one entry each, as long as the total stays at or below 1001: the clearing
branch fires only strictly above the 1000-entry cap. -/
theorem embedMany_length (env : EmbedEnv) :
    ∀ (texts : List String) (cache : Cache),
      texts.Nodup →
      (∀ t ∈ texts, validIndices env t ≠ []) →
      (∀ t ∈ texts, t ∉ cache.map Prod.fst) →
      cache.length + texts.length ≤ 1001 →
      (embedMany env texts cache).length = cache.length + texts.length := by
  intro texts
  induction texts with
  | nil => intro cache _ _ _ _; simp [embedMany]
  | cons t ts ih =>
    intro cache hnd hval hnotin hlen
    have hmiss : lookupC cache t = none := lookupC_eq_none _ _ (hnotin t (by simp))
    have hsmall : ¬ 1000 < cache.length := by
      simp only [List.length_cons] at hlen; omega
    obtain ⟨i, is, hvi⟩ : ∃ i is, validIndices env t = i :: is := by
      cases hv : validIndices env t with
      | nil => exact absurd hv (hval t (by simp))
      | cons i is => exact ⟨i, is, rfl⟩
    have hstep := getTextEmbedding_snd_append env cache t hmiss hsmall i is hvi
    have hnodup' : ts.Nodup := (List.nodup_cons.mp hnd).2
    have htni : t ∉ ts := (List.nodup_cons.mp hnd).1
    have hrec := ih (cache ++ [(t, vmean ((i :: is).map (fun j => env.rows.getD j [])))])
      hnodup' (fun u hu => hval u (by simp [hu]))
      (fun u hu => by
        simp only [List.map_append, List.mem_append, List.map_cons, List.map_nil,
          List.mem_singleton, not_or]
        exact ⟨hnotin u (by simp [hu]), fun he => htni (he ▸ hu)⟩)
      (by simp only [List.length_append, List.length_cons, List.length_nil] at hlen ⊢; omega)
    calc (embedMany env (t :: ts) cache).length
        = (embedMany env ts ((getTextEmbedding env cache t).2)).length := by
          simp [embedMany]
      _ = cache.length + (t :: ts).length := by
          rw [hstep, hrec]; simp only [List.length_append, List.length_cons,
            List.length_nil]; omega

/-- A whitespace-free character list splits into a single piece. -/
theorem jsSplitWsAux_no_ws : ∀ (l : List Char) (b : Bool) (acc : List Char),
    (∀ c ∈ l, c.isWhitespace = false) →
    jsSplitWsAux b l acc = [String.mk (acc.reverse ++ l)] := by
  intro l
  induction l with
  | nil => intro b acc _; simp [jsSplitWsAux]
  | cons c cs ih =>
    intro b acc h
    have hc : c.isWhitespace = false := h c (by simp)
    rw [jsSplitWsAux, if_neg (by simp [hc])]
    rw [ih false (c :: acc) (fun d hd => h d (by simp [hd]))]
    simp

/-- Each of the test texts resolves to vocabulary index 0. -/
theorem validIndices_replicate_a (n : ℕ) (hn : 3 ≤ n) :
    validIndices envAll (String.mk (List.replicate n 'a')) = [0] := by
  have htok : tokenize (String.mk (List.replicate n 'a')) =
      [String.mk (List.replicate n 'a')] := by
    unfold tokenize jsToLower jsSplitWs
    simp only [List.map_replicate]
    have h1 : Char.toLower 'a' = 'a' := by decide
    rw [h1]
    have h2 : (List.replicate n 'a').filter
        (fun c => decide (('a' ≤ c ∧ c ≤ 'z') ∨ ('0' ≤ c ∧ c ≤ '9')) || c.isWhitespace) =
        List.replicate n 'a' := by
      rw [List.filter_replicate]
      simp
    rw [h2, jsSplitWsAux_no_ws (List.replicate n 'a') false [] (by
      intro c hc
      rw [List.eq_of_mem_replicate hc]
      decide)]
    simp only [List.reverse_nil, List.nil_append, List.filter_cons, List.filter_nil]
    have h3 : (String.mk (List.replicate n 'a')).length = n := by
      simp [String.length]
    rw [if_pos (by simp only [h3]; exact decide_eq_true (by omega))]
  unfold validIndices
  rw [htok]
  simp [envAll, vocabSize]

/-- C6 counterexample: starting from an empty cache, inserting 1001 distinct
embeddable texts leaves the cache with 1001 entries — one more than the
1000-entry cap — because the clear runs only when the size already exceeds
the cap, not on the insert that would first pass it. -/
theorem embedCache_overflow_reaches_1001 :
    (embedMany envAll texts1001 []).length = 1001 ∧
    1000 < (embedMany envAll texts1001 []).length := by
  have hinj : Function.Injective (fun i : ℕ => String.mk (List.replicate (i + 3) 'a')) := by
    intro a b h
    have hd := congrArg String.data h
    simp only [String.data] at hd
    have := congrArg List.length hd
    simpa using this
  have hnodup : texts1001.Nodup := (List.nodup_range 1001).map hinj
  have hval : ∀ t ∈ texts1001, validIndices envAll t ≠ [] := by
    intro t ht
    obtain ⟨i, _, rfl⟩ := List.mem_map.mp ht
    rw [validIndices_replicate_a (i + 3) (by omega)]
    simp
  have hlen : texts1001.length = 1001 := by simp [texts1001]
  have h := embedMany_length envAll texts1001 [] hnodup hval (by simp) (by simp [hlen])
  rw [List.length_nil, hlen] at h
  exact ⟨by simpa using h, by simp [h]⟩

/-- C6 amended: the cache is bounded by cap + 1 = 1001 entries, not by the
cap: an insert clears the cache only when its size already exceeds 1000, and
on such a clearing call the resulting cache has at most one entry. -/
theorem embedCache_bounded_cap_plus_one (env : EmbedEnv) (cache : Cache) (t : String)
    (hb : cache.length ≤ 1001) :
    ((getTextEmbedding env cache t).2).length ≤ 1001 ∧
    (1000 < cache.length → lookupC cache t = none →
      ((getTextEmbedding env cache t).2).length ≤ 1) := by
  unfold getTextEmbedding
  cases hl : lookupC cache t with
  | some v =>
    refine ⟨by simpa using hb, fun _ hnone => ?_⟩
    exact absurd hnone (by simp)
  | none =>
    by_cases hbig : 1000 < cache.length
    · rw [if_pos hbig]
      cases validIndices env t with
      | nil => exact ⟨by simp, fun _ _ => by simp⟩
      | cons i is => exact ⟨by simp, fun _ _ => by simp⟩
    · rw [if_neg hbig]
      cases validIndices env t with
      | nil => exact ⟨by simpa using hb, fun hc _ => absurd hc hbig⟩
      | cons i is =>
        refine ⟨?_, fun hc _ => absurd hc hbig⟩
        simp only [List.length_append, List.length_singleton]
        omega

/-- Witness for `embedCache_bounded_cap_plus_one` at a concrete input. -/
theorem embedCache_bounded_cap_plus_one_witness :
    ([("aaa", [1])] : Cache).length ≤ 1001 ∧
    (((getTextEmbedding envAll [("aaa", [1])] "bbb").2).length ≤ 1001 ∧
      (1000 < ([("aaa", [1])] : Cache).length → lookupC [("aaa", [1])] "bbb" = none →
        ((getTextEmbedding envAll [("aaa", [1])] "bbb").2).length ≤ 1)) :=
  ⟨by decide, embedCache_bounded_cap_plus_one envAll [("aaa", [1])] "bbb" (by decide)⟩

/-- C2 counterexample: with `maxTokens = 10` and a 60-second window, after the
ten tokens are consumed at `t = 0` and a denied `tryAcquire()` occurs at
`t = 30s`, the claimed permit at `t = 61s` is in fact denied: the `t = 30s`
call reset `lastRefill` to 30000 ms, so only 31 s of the window have elapsed
at `t = 61s`.  This refutes the claim that the `t = 61s` call returns
permit-granted. -/
theorem tryAcquire_at_61s_is_denied :
    (drainedBucket.tryAcquire 30000).1 = false ∧
    ((drainedBucket.acquireState 30000).tryAcquire 61000).1 = false := by
  constructor <;> decide

/-- C2 amended: in the claimed scenario the `t = 30s` call is denied, the
`t = 61s` call is also denied (each refill attempt resets `lastRefill`, so the
window restarts at 30 s), and the first full window after the `t = 30s` call
ends at `t = 90s`, where `tryAcquire()` is granted again. -/
theorem tryAcquire_refill_window_restarts :
    (drainedBucket.tryAcquire 30000).1 = false ∧
    ((drainedBucket.acquireState 30000).tryAcquire 61000).1 = false ∧
    ((drainedBucket.acquireState 30000).tryAcquire 90000).1 = true := by
  refine ⟨by decide, by decide, by decide⟩

/-- C7 counterexample: for the single-term query "cat" against the chunk
text "cat" (whose one term trivially appears in order) with base similarity
0, the code computes 21/50 = 0.42 while the claimed formula — which applies
the 0.25 in-order bonus to single-term queries as well — gives 67/100 =
0.67.  The guard `queryTerms.length > 1` withholds the bonus from single-term
queries. -/
theorem relevanceScore_single_term_no_bonus :
    calculateRelevanceScore "cat" "cat" 0 = 21 / 50 ∧
    claimedRelevanceScore "cat" "cat" 0 = 67 / 100 ∧
    calculateRelevanceScore "cat" "cat" 0 ≠ claimedRelevanceScore "cat" "cat" 0 := by
  refine ⟨by decide, by decide, by decide⟩

/-- C7 amended: the composite relevance score equals the base similarity,
plus 0.2 for a verbatim case-insensitive occurrence, plus 0.3 times the
query-word overlap ratio, minus 0.1 times the relative length difference
from five times the query length, plus 0.25 exactly when the query has more
than one term and all terms appear in order at strictly increasing
positions — the in-order bonus never applies to single-term queries. -/
theorem calculateRelevanceScore_eq_amended (chunkText query : String) (s : ℚ) :
    calculateRelevanceScore chunkText query s = amendedRelevanceScore chunkText query s := by
  unfold calculateRelevanceScore amendedRelevanceScore specInOrder
  by_cases h1 : jsIncludes (jsToLower chunkText) (jsToLower query) = true <;>
  by_cases h2 : 1 < (jsSplitWs (jsToLower query)).length <;>
  by_cases h3 : foundInOrderAux (jsToLower chunkText) (jsSplitWs (jsToLower query)) (-1) = true <;>
  simp only [h1, h2, h3, if_true, if_false, true_and, false_and, and_true, and_false,
    if_pos, Bool.false_eq_true, iff_false, not_true, not_false_iff] <;>
  ring

/-- C8: `nextMatch` and `previousMatch` are no-ops on an empty match list,
rotate `currentMatchIndex` by plus respectively minus one modulo the match
count on a non-empty list, preserve the navigation invariant, and touch no
other state — in particular the match list, embedding cache and rate limiter
are unchanged, so no search is re-run. -/
theorem nextPrev_rotate_preserve_invariant (st : SearchState) (hinv : navInvariant st) :
    (st.currentMatches = [] → nextMatch st = st ∧ previousMatch st = st) ∧
    navInvariant (nextMatch st) ∧ navInvariant (previousMatch st) ∧
    (nextMatch st).currentMatches = st.currentMatches ∧
    (previousMatch st).currentMatches = st.currentMatches ∧
    (nextMatch st).cache = st.cache ∧ (previousMatch st).cache = st.cache ∧
    (nextMatch st).rateLimiter = st.rateLimiter ∧
    (previousMatch st).rateLimiter = st.rateLimiter ∧
    (0 < st.currentMatches.length →
      (nextMatch st).currentMatchIndex =
        (st.currentMatchIndex + 1).tmod (st.currentMatches.length : ℤ) ∧
      (previousMatch st).currentMatchIndex =
        ((st.currentMatches.length : ℤ) + st.currentMatchIndex - 1).tmod
          (st.currentMatches.length : ℤ)) := by
  by_cases hlen : st.currentMatches.length = 0
  · have hnil : st.currentMatches = [] := List.length_eq_zero.mp hlen
    have hnext : nextMatch st = st := by unfold nextMatch; rw [if_pos hlen]
    have hprev : previousMatch st = st := by unfold previousMatch; rw [if_pos hlen]
    refine ⟨fun _ => ⟨hnext, hprev⟩, by rw [hnext]; exact hinv, by rw [hprev]; exact hinv,
      by rw [hnext], by rw [hprev],
      by rw [hnext], by rw [hprev], by rw [hnext], by rw [hprev], fun h => absurd hlen (by omega)⟩
  · have hpos : 0 < st.currentMatches.length := Nat.pos_of_ne_zero hlen
    have hposZ : (0 : ℤ) < (st.currentMatches.length : ℤ) := by exact_mod_cast hpos
    obtain ⟨hlo, hhi⟩ := hinv.1 hpos
    have hnext : nextMatch st =
        { st with currentMatchIndex := ((st.currentMatchIndex + 1).tmod ((st.currentMatches.length : ℤ))) } := by
      unfold nextMatch; rw [if_neg hlen]
    have hprev : previousMatch st =
        { st with currentMatchIndex := (((st.currentMatches.length : ℤ) + st.currentMatchIndex - 1).tmod ((st.currentMatches.length : ℤ))) } := by
      unfold previousMatch; rw [if_neg hlen]
    have hinvNext : navInvariant (nextMatch st) := by
      rw [hnext]
      refine ⟨fun _ => ⟨Int.tmod_nonneg _ (by omega), Int.tmod_lt_of_pos _ hposZ⟩,
        fun h0 => absurd h0 hlen⟩
    have hinvPrev : navInvariant (previousMatch st) := by
      rw [hprev]
      refine ⟨fun _ => ⟨Int.tmod_nonneg _ (by omega), Int.tmod_lt_of_pos _ hposZ⟩,
        fun h0 => absurd h0 hlen⟩
    refine ⟨fun hnil => absurd (by rw [hnil]; rfl) hlen, hinvNext, hinvPrev,
      by rw [hnext], by rw [hprev], by rw [hnext], by rw [hprev], by rw [hnext], by rw [hprev],
      fun _ => ⟨by rw [hnext], by rw [hprev]⟩⟩

/-- A concrete session state with five matches and `activeIndex = 4`, used to
witness the navigation theorem (the spec's own wrap-around example). -/
def navState5 : SearchState :=
  { rateLimiter := RateLimiter.init 10 1 0
    cache := []
    currentMatches := (List.range 5).map (fun i => ⟨⟨toString i, [toString i]⟩, none⟩)
    currentMatchIndex := 4
    isSearching := false
    highlightElements := []
    domHighlights := [] }

/-- Witness for `nextPrev_rotate_preserve_invariant`: on the five-match state
with `activeIndex = 4`, `next()` wraps to 0 and `previous()` steps to 3, the
invariant holding on both sides. -/
theorem nextPrev_rotate_witness :
    navInvariant navState5 ∧
    ((navState5.currentMatches = [] → nextMatch navState5 = navState5 ∧
        previousMatch navState5 = navState5) ∧
      navInvariant (nextMatch navState5) ∧ navInvariant (previousMatch navState5) ∧
      (nextMatch navState5).currentMatches = navState5.currentMatches ∧
      (previousMatch navState5).currentMatches = navState5.currentMatches ∧
      (nextMatch navState5).cache = navState5.cache ∧
      (previousMatch navState5).cache = navState5.cache ∧
      (nextMatch navState5).rateLimiter = navState5.rateLimiter ∧
      (previousMatch navState5).rateLimiter = navState5.rateLimiter ∧
      (0 < navState5.currentMatches.length →
        (nextMatch navState5).currentMatchIndex =
          (navState5.currentMatchIndex + 1).tmod (navState5.currentMatches.length : ℤ) ∧
        (previousMatch navState5).currentMatchIndex =
          ((navState5.currentMatches.length : ℤ) + navState5.currentMatchIndex - 1).tmod
            (navState5.currentMatches.length : ℤ))) :=
  ⟨⟨fun _ => by decide, fun h => by simp [navState5] at h⟩,
    nextPrev_rotate_preserve_invariant navState5
      ⟨fun _ => by decide, fun h => by simp [navState5] at h⟩⟩

/-- C10: in exact mode, when the chunk-level case-insensitive substring test
succeeds but no single unit's own text contains the query (the occurrence
spans a unit boundary), the chunk contributes nothing: no match is recorded
and no highlight is applied, so the state is returned unchanged. -/
theorem exact_boundary_match_dropped (env : EmbedEnv) (q : String) (c : Chunk)
    (st : SearchState)
    (hchunk : jsIncludes (jsToLower c.text) (jsToLower (sanitizeInput q)) = true)
    (hunits : ∀ u ∈ c.units, jsIncludes (jsToLower u) (jsToLower (sanitizeInput q)) = false) :
    searchStepChunk env q Mode.exact c st = st := by
  unfold searchStepChunk exactStep
  rw [if_pos hchunk]
  have hfil : c.units.filter
      (fun u => jsIncludes (jsToLower u) (jsToLower (sanitizeInput q))) = [] := by
    rw [List.filter_eq_nil_iff]
    intro u hu
    simp [hunits u hu]
  rw [hfil]
  simp

/-- Witness for `exact_boundary_match_dropped`: the chunk "ab cd" built from
the units "ab" and "cd" contains the query "b c" across the unit boundary,
yet neither unit does, and the exact-mode step leaves the state unchanged. -/
theorem exact_boundary_match_dropped_witness :
    jsIncludes (jsToLower (Chunk.mk "ab cd" ["ab", "cd"]).text)
      (jsToLower (sanitizeInput "b c")) = true ∧
    (∀ u ∈ (Chunk.mk "ab cd" ["ab", "cd"]).units,
      jsIncludes (jsToLower u) (jsToLower (sanitizeInput "b c")) = false) ∧
    searchStepChunk envAll "b c" Mode.exact (Chunk.mk "ab cd" ["ab", "cd"]) initState
      = initState :=
  ⟨by decide, by decide,
    exact_boundary_match_dropped envAll "b c" (Chunk.mk "ab cd" ["ab", "cd"]) initState
      (by decide) (by decide)⟩

/-- C1 counterexample: a fresh manager (full bucket of 10 tokens) given the
one-character query "a" rejects it as too short, yet the bucket drops from
10 to 9 tokens: `tryAcquire()` runs before `validateSearchPattern`. -/
theorem shortQuery_consumes_token :
    (ContentSearchManager.search envAll fuse0 initState "a" Mode.exact [] 0 none).1
      = Except.error SearchError.patternTooShort ∧
    initState.rateLimiter.tokens = 10 ∧
    (ContentSearchManager.search envAll fuse0 initState "a" Mode.exact [] 0 none).2.rateLimiter.tokens
      = 9 := by
  refine ⟨rfl, by decide, by decide⟩

/-- C1 amended: a query whose sanitized form is shorter than 2 characters is
rejected with `patternTooShort` and no session starts (`isSearching` ends
false, the match list is empty, the index is −1) — but a rate-limit token IS
consumed whenever one is available, because the admission check precedes
validation. -/
theorem shortQuery_rejected_but_token_spent (env : EmbedEnv)
    (fuse : List Chunk → String → List (Chunk × ℚ)) (st : SearchState)
    (q : String) (mode : Mode) (chunks : List Chunk) (now : ℚ) (cancelAt : Option ℕ)
    (hshort : (sanitizeInput q).length < 2)
    (htok : 0 < (st.rateLimiter.refill now).tokens) :
    (ContentSearchManager.search env fuse st q mode chunks now cancelAt).1
      = Except.error SearchError.patternTooShort ∧
    (ContentSearchManager.search env fuse st q mode chunks now cancelAt).2.isSearching = false ∧
    (ContentSearchManager.search env fuse st q mode chunks now cancelAt).2.currentMatches = [] ∧
    (ContentSearchManager.search env fuse st q mode chunks now cancelAt).2.currentMatchIndex = -1 ∧
    (ContentSearchManager.search env fuse st q mode chunks now cancelAt).2.rateLimiter.tokens
      = (st.rateLimiter.refill now).tokens - 1 := by
  have hacq : st.rateLimiter.tryAcquire now =
      (true, { st.rateLimiter.refill now with
                tokens := (st.rateLimiter.refill now).tokens - 1 }) := by
    unfold RateLimiter.tryAcquire
    rw [if_pos htok]
  have hval : validateSearchPattern (sanitizeInput q)
      = Except.error SearchError.patternTooShort := by
    unfold validateSearchPattern
    rw [if_neg (by omega), if_pos hshort]
  unfold ContentSearchManager.search
  rw [hacq]
  dsimp only
  rw [hval]
  dsimp only
  simp

/-- Witness for `shortQuery_rejected_but_token_spent` at the query "a" on a
fresh state. -/
theorem shortQuery_rejected_but_token_spent_witness :
    ((sanitizeInput "a").length < 2 ∧ 0 < (initState.rateLimiter.refill 0).tokens) ∧
    ((ContentSearchManager.search envAll fuse0 initState "a" Mode.exact [] 0 none).1
        = Except.error SearchError.patternTooShort ∧
      (ContentSearchManager.search envAll fuse0 initState "a" Mode.exact [] 0 none).2.isSearching
        = false ∧
      (ContentSearchManager.search envAll fuse0 initState "a" Mode.exact [] 0 none).2.currentMatches
        = [] ∧
      (ContentSearchManager.search envAll fuse0 initState "a" Mode.exact [] 0 none).2.currentMatchIndex
        = -1 ∧
      (ContentSearchManager.search envAll fuse0 initState "a" Mode.exact [] 0 none).2.rateLimiter.tokens
        = (initState.rateLimiter.refill 0).tokens - 1) :=
  ⟨⟨by decide, by decide⟩,
    shortQuery_rejected_but_token_spent envAll fuse0 initState "a" Mode.exact [] 0 none
      (by decide) (by decide)⟩

/-- Membership in an insertion into the score-sorted list comes from the
inserted element or the original list. -/
theorem mem_insertByScore : ∀ (l : List ResultEntry) (r a : ResultEntry),
    a ∈ insertByScore r l → a = r ∨ a ∈ l := by
  intro l
  induction l with
  | nil => intro r a h; simpa [insertByScore] using h
  | cons x xs ih =>
    intro r a h
    unfold insertByScore at h
    split at h
    · rcases List.mem_cons.mp h with h | h
      · exact Or.inl h
      · exact Or.inr h
    · rcases List.mem_cons.mp h with h | h
      · exact Or.inr (h ▸ List.mem_cons_self _ _)
      · rcases ih r a h with h' | h'
        · exact Or.inl h'
        · exact Or.inr (List.mem_cons_of_mem _ h')

/-- Sorting by score preserves membership (one direction). -/
theorem mem_sortByScoreDesc {a : ResultEntry} : ∀ {l : List ResultEntry},
    a ∈ sortByScoreDesc l → a ∈ l := by
  intro l
  induction l with
  | nil => intro h; simp [sortByScoreDesc] at h
  | cons x xs ih =>
    intro h
    have h' : a ∈ insertByScore x (sortByScoreDesc xs) := h
    rcases mem_insertByScore _ _ _ h' with h'' | h''
    · exact h'' ▸ List.mem_cons_self _ _
    · exact List.mem_cons_of_mem _ (ih h'')

/-- Every result the worker-loop body admits passed the double gate. -/
theorem workerStep_gate (env : EmbedEnv) (query : String) (qe : List ℚ)
    (mw : Bool) (terms : List String) (acc : List ResultEntry × Cache) (c : Chunk)
    (hacc : ∀ r ∈ acc.1, doubleGated query r) :
    ∀ r ∈ (workerStep env query qe mw terms acc c).1, doubleGated query r := by
  intro r hr
  unfold workerStep at hr
  split at hr
  · exact hacc r hr
  · dsimp only at hr
    split at hr
    next h2 =>
      split at hr
      next h3 =>
        rcases List.mem_append.mp hr with h | h
        · exact hacc r h
        · have he := List.mem_singleton.mp h
          subst he
          exact ⟨h3, (getSimilarity env acc.2 qe c.text).1, h2, rfl⟩
      next => exact hacc r hr
    next => exact hacc r hr

/-- Every result the worker loop accumulates passed the double gate. -/
theorem workerFold_gate (env : EmbedEnv) (query : String) (qe : List ℚ)
    (mw : Bool) (terms : List String) :
    ∀ (chunks : List Chunk) (acc : List ResultEntry × Cache),
      (∀ r ∈ acc.1, doubleGated query r) →
      ∀ r ∈ (List.foldl (workerStep env query qe mw terms) acc chunks).1, doubleGated query r := by
  intro chunks
  induction chunks with
  | nil => intro acc hacc; simpa using hacc
  | cons ch cs ih =>
    intro acc hacc r hr
    exact ih _ (workerStep_gate env query qe mw terms acc ch hacc) r hr

/-- C3 amended, worker side: every chunk the worker's `performSearch` accepts
passed both gates — its composite relevance score exceeds the 0.8 threshold,
and that score was computed from a base cosine similarity that itself exceeds
the threshold (the content-script semantic path, by contrast, accepts on base
similarity alone; see the counterexample). -/
theorem performSearch_double_gate (env : EmbedEnv) (query : String)
    (chunks : List Chunk) (cache : Cache) (r : ResultEntry)
    (hr : r ∈ (performSearch env query chunks cache).1) :
    doubleGated query r := by
  unfold performSearch at hr
  rcases hq : getTextEmbedding env cache query with ⟨o, c⟩
  rw [hq] at hr
  cases o with
  | none => simp at hr
  | some qe =>
    dsimp only at hr
    have h1 : r ∈ sortByScoreDesc
        (List.foldl (workerStep env query qe (decide (1 < (jsSplitWs (jsToLower query)).length))
          (jsSplitWs (jsToLower query))) ([], c) chunks).1 :=
      List.mem_of_mem_take hr
    exact workerFold_gate env query qe _ _ chunks ([], c) (by simp) r (mem_sortByScoreDesc h1)

/-- Witness for `performSearch_double_gate`: on the one-word vocabulary
environment, the query "cat" against the single chunk "cat" is accepted with
score 71/50, computed from base similarity 1. -/
theorem performSearch_double_gate_witness :
    (⟨⟨"cat", ["cat"]⟩, 71 / 50, "cat"⟩ : ResultEntry)
        ∈ (performSearch envAll "cat" [⟨"cat", ["cat"]⟩] []).1 ∧
    doubleGated "cat" ⟨⟨"cat", ["cat"]⟩, 71 / 50, "cat"⟩ :=
  ⟨by decide,
    performSearch_double_gate envAll "cat" [⟨"cat", ["cat"]⟩] [] _ (by decide)⟩

/-- C3 counterexample: in the content script's semantic mode, acceptance uses
`findSimilar` — base cosine similarity only.  With `cat` and `dog` sharing
the embedding row `[1]`, searching "cat" over the chunk `chunkC3` (text
"dog zzzz … zzzz") accepts the chunk: its base similarity is 1 (the two unit
vectors coincide, `cosineSimilarity` returning exactly 1), yet its composite
relevance score at that base similarity is 39/50 = 0.78, below the 0.8
threshold.  A chunk is therefore accepted on base similarity alone, refuting
the claimed "accepted iff both exceed the threshold". -/
theorem semantic_accepts_on_base_similarity_alone :
    (ContentSearchManager.search envC3 fuse0 initState "cat" Mode.semantic [chunkC3] 0 none).2.currentMatches
      = [⟨chunkC3, none⟩] ∧
    (findSimilar envC3 [] "cat" chunkC3.text).1 = true ∧
    cosineSimilarity envC3.sqrtF [1] [1] = 1 ∧
    calculateRelevanceScore chunkC3.text "cat" 1 = 39 / 50 ∧
    ¬ (8 / 10 : ℚ) < 39 / 50 := by
  refine ⟨by decide, by decide, by decide, by decide, by decide⟩

/-- The chunk-loop body never touches the cancellation flag: only the
`CANCEL_SEARCH` handler (and the surrounding `search` body) writes
`isSearching`. -/
theorem searchStepChunk_isSearching (env : EmbedEnv) (q : String) (mode : Mode)
    (c : Chunk) (st : SearchState) :
    (searchStepChunk env q mode c st).isSearching = st.isSearching := by
  cases mode with
  | semantic =>
    unfold searchStepChunk
    dsimp only
    split <;> rfl
  | exact =>
    unfold searchStepChunk
    dsimp only
    split <;> rfl
  | fuzzy => rfl

/-- Without a cancellation, the chunk loop is a plain left fold. -/
theorem searchLoop_none_eq_foldl (step : Chunk → SearchState → SearchState)
    (hpres : ∀ c s, (step c s).isSearching = s.isSearching) :
    ∀ (chunks : List Chunk) (i : ℕ) (st : SearchState), st.isSearching = true →
      searchLoop step none chunks i st = chunks.foldl (fun s c => step c s) st := by
  intro chunks
  induction chunks with
  | nil => intro i st _; rfl
  | cons c cs ih =>
    intro i st hs
    unfold searchLoop
    dsimp only
    rw [if_neg (show ¬((none : Option ℕ) = some i) from by simp)]
    rw [if_pos hs]
    rw [ih (i + 1) (step c st) (by rw [hpres]; exact hs)]
    rfl

/-- A cancellation observed before chunk `k` makes the loop process exactly
the first `k - i` remaining chunks, then stop with the flag cleared, the DOM
highlights cleared, and the embedding cache disposed; no later chunk is
processed. -/
theorem searchLoop_cancel (step : Chunk → SearchState → SearchState)
    (hpres : ∀ c s, (step c s).isSearching = s.isSearching) :
    ∀ (chunks : List Chunk) (i k : ℕ) (st : SearchState),
      i ≤ k → k - i < chunks.length → st.isSearching = true →
      searchLoop step (some k) chunks i st =
        { (chunks.take (k - i)).foldl (fun s c => step c s) st with
            isSearching := false, domHighlights := [], cache := [] } := by
  intro chunks
  induction chunks with
  | nil => intro i k st _ hlt _; simp at hlt
  | cons c cs ih =>
    intro i k st hik hlt hs
    unfold searchLoop
    dsimp only
    by_cases hek : k = i
    · subst hek
      rw [if_pos rfl]
      dsimp only
      rw [if_neg (show ¬(false = true) from by simp)]
      simp
    · rw [if_neg (show ¬((some k : Option ℕ) = some i) from by simp [hek])]
      rw [if_pos hs]
      rw [ih (i + 1) k (step c st) (by omega)
        (by simp only [List.length_cons] at hlt; omega) (by rw [hpres]; exact hs)]
      have htake : (c :: cs).take (k - i) = c :: cs.take (k - (i + 1)) := by
        obtain ⟨m, hm⟩ : ∃ m, k - i = m + 1 := ⟨k - i - 1, by omega⟩
        rw [hm, List.take_succ_cons]
        have hm2 : m = k - (i + 1) := by omega
        rw [hm2]
      rw [htake]
      rfl

/-- Clearing the cancellation flag, the DOM highlights and the cache before
the finish step only clears those final fields; matches, counts and the
returned result are unaffected. -/
theorem finishSearch_clearDom (F : SearchState) :
    finishSearch { F with isSearching := false, domHighlights := [], cache := [] } =
      ((finishSearch F).1,
        { (finishSearch F).2 with domHighlights := [], cache := [] }) := by
  unfold finishSearch
  dsimp only
  by_cases hF : 0 < F.currentMatches.length
  · rw [if_pos hF, if_pos hF]
  · rw [if_neg hF, if_neg hF]

/-- C4 amended: a search over `chunks` cancelled before chunk `k` behaves
exactly like an uncancelled search over the first `k` chunks, except that the
DOM highlights applied so far are cleared and the embedding cache is
disposed: no chunk at or beyond index `k` is processed, but the matches
accumulated on the first `k` chunks remain in session state and are reported
to the caller in the returned counts — they are not discarded — and no
distinct cancelled outcome is signalled. -/
theorem search_cancel_keeps_prefix (env : EmbedEnv)
    (fuse : List Chunk → String → List (Chunk × ℚ)) (st : SearchState)
    (q : String) (mode : Mode) (chunks : List Chunk) (now : ℚ) (k : ℕ)
    (hmode : mode ≠ Mode.fuzzy) (hk : k < chunks.length)
    (htok : 0 < (st.rateLimiter.refill now).tokens)
    (hq2 : 2 ≤ (sanitizeInput q).length) (hq100 : (sanitizeInput q).length ≤ 100) :
    ContentSearchManager.search env fuse st q mode chunks now (some k) =
      ((ContentSearchManager.search env fuse st q mode (chunks.take k) now none).1,
       { (ContentSearchManager.search env fuse st q mode (chunks.take k) now none).2
           with domHighlights := [], cache := [] }) := by
  have hacq : st.rateLimiter.tryAcquire now =
      (true, { st.rateLimiter.refill now with
                tokens := (st.rateLimiter.refill now).tokens - 1 }) := by
    unfold RateLimiter.tryAcquire
    rw [if_pos htok]
  have hval : validateSearchPattern (sanitizeInput q) = Except.ok (sanitizeInput q) := by
    unfold validateSearchPattern
    rw [if_neg (by omega), if_neg (by omega)]
  unfold ContentSearchManager.search
  rw [hacq]
  dsimp only
  simp only [eq_self_iff_true, not_true, if_false]
  rw [hval]
  · dsimp only
    cases mode with
    | fuzzy => exact absurd rfl hmode
    | exact =>
      rw [searchLoop_cancel (searchStepChunk env q Mode.exact)
          (searchStepChunk_isSearching env q Mode.exact) chunks 0 k _ (Nat.zero_le k)
          (by simpa using hk) rfl,
        searchLoop_none_eq_foldl (searchStepChunk env q Mode.exact)
          (searchStepChunk_isSearching env q Mode.exact) (chunks.take k) 0 _ rfl]
      simp only [Nat.sub_zero]
      exact finishSearch_clearDom _
    | semantic =>
      rw [searchLoop_cancel (searchStepChunk env q Mode.semantic)
          (searchStepChunk_isSearching env q Mode.semantic) chunks 0 k _ (Nat.zero_le k)
          (by simpa using hk) rfl,
        searchLoop_none_eq_foldl (searchStepChunk env q Mode.semantic)
          (searchStepChunk_isSearching env q Mode.semantic) (chunks.take k) 0 _ rfl]
      simp only [Nat.sub_zero]
      exact finishSearch_clearDom _

/-- Witness for `search_cancel_keeps_prefix`: exact-mode search over two
matching chunks, cancelled before the second chunk. -/
theorem search_cancel_keeps_prefix_witness :
    (Mode.exact ≠ Mode.fuzzy ∧ 1 < ([chunkX, chunkY] : List Chunk).length ∧
      0 < (initState.rateLimiter.refill 0).tokens ∧
      2 ≤ (sanitizeInput "ab").length ∧ (sanitizeInput "ab").length ≤ 100) ∧
    ContentSearchManager.search envAll fuse0 initState "ab" Mode.exact [chunkX, chunkY] 0 (some 1) =
      ((ContentSearchManager.search envAll fuse0 initState "ab" Mode.exact
          ([chunkX, chunkY].take 1) 0 none).1,
       { (ContentSearchManager.search envAll fuse0 initState "ab" Mode.exact
            ([chunkX, chunkY].take 1) 0 none).2 with domHighlights := [], cache := [] }) :=
  ⟨⟨by decide, by decide, by decide, by decide, by decide⟩,
    search_cancel_keeps_prefix envAll fuse0 initState "ab" Mode.exact [chunkX, chunkY] 0 1
      (by decide) (by decide) (by decide) (by decide) (by decide)⟩

/-- C4 counterexample: the exact-mode search over `[chunkX, chunkY]` (both
matching "ab") cancelled before chunk 1 reports `matchCount = 1` to the
caller and keeps the partial match for `chunkX` in session state — the
partial matches are not discarded, and the terminal outcome is the same
`ok` result an uncancelled search returns, with no distinct cancelled
state. -/
theorem search_cancel_reports_partial_matches :
    (ContentSearchManager.search envAll fuse0 initState "ab" Mode.exact
        [chunkX, chunkY] 0 (some 1)).1 = Except.ok ⟨1, 0, 1⟩ ∧
    (ContentSearchManager.search envAll fuse0 initState "ab" Mode.exact
        [chunkX, chunkY] 0 (some 1)).2.currentMatches = [⟨chunkX, some ["ab"]⟩] := by
  refine ⟨rfl, by decide⟩

/-- The fuzzy fold appends one match per Fuse result in order and leaves the
index unchanged. -/
theorem fuzzyPush_foldl_matches : ∀ (rs : List (Chunk × ℚ)) (st : SearchState),
    (List.foldl fuzzyPush st rs).currentMatches
      = st.currentMatches ++ rs.map (fun r => (⟨r.1, none⟩ : MatchEntry)) ∧
    (List.foldl fuzzyPush st rs).currentMatchIndex = st.currentMatchIndex := by
  intro rs
  induction rs with
  | nil => intro st; simp
  | cons r rs ih =>
    intro st
    constructor
    · rw [List.foldl_cons, (ih _).1]
      simp [fuzzyPush]
    · rw [List.foldl_cons, (ih _).2]
      rfl

/-- The non-fuzzy per-chunk step appends at most one match, for the chunk at
hand, and leaves the index unchanged. -/
theorem searchStepChunk_matches (env : EmbedEnv) (q : String) (mode : Mode)
    (c : Chunk) (st : SearchState) :
    ∃ app : List MatchEntry,
      (searchStepChunk env q mode c st).currentMatches = st.currentMatches ++ app ∧
      List.Sublist (app.map (fun m => m.chunk)) [c] ∧
      (searchStepChunk env q mode c st).currentMatchIndex = st.currentMatchIndex := by
  cases mode with
  | fuzzy => exact ⟨[], by simp [searchStepChunk], by simp, rfl⟩
  | exact =>
    unfold searchStepChunk
    dsimp only
    cases he : exactStep (jsToLower (sanitizeInput q)) c with
    | none => exact ⟨[], by simp, by simp, rfl⟩
    | some e =>
      refine ⟨[e], rfl, ?_, rfl⟩
      have hc : e.chunk = c := by
        unfold exactStep at he
        split at he
        · dsimp only at he
          split at he
          · cases he
            rfl
          · exact absurd he (by simp)
        · exact absurd he (by simp)
      rw [List.map_singleton, hc]
  | semantic =>
    unfold searchStepChunk
    dsimp only
    by_cases hf : (findSimilar env st.cache (sanitizeInput q) c.text).1 = true
    · rw [if_pos hf]
      exact ⟨[⟨c, none⟩], rfl, by simp, rfl⟩
    · rw [if_neg hf]
      exact ⟨[], by simp, by simp, rfl⟩

/-- Whatever the cancellation schedule, the chunk loop appends matches whose
chunks form an order-preserving sublist of the traversed chunk list, and
leaves the index unchanged. -/
theorem searchLoop_matches_sublist (step : Chunk → SearchState → SearchState)
    (hstep : ∀ c s, ∃ app : List MatchEntry,
      (step c s).currentMatches = s.currentMatches ++ app ∧
      List.Sublist (app.map (fun m => m.chunk)) [c] ∧
      (step c s).currentMatchIndex = s.currentMatchIndex) :
    ∀ (chunks : List Chunk) (cancelAt : Option ℕ) (i : ℕ) (st : SearchState),
      ∃ app : List MatchEntry,
        (searchLoop step cancelAt chunks i st).currentMatches = st.currentMatches ++ app ∧
        List.Sublist (app.map (fun m => m.chunk)) chunks ∧
        (searchLoop step cancelAt chunks i st).currentMatchIndex = st.currentMatchIndex := by
  intro chunks
  induction chunks with
  | nil => intro cA i st; exact ⟨[], by simp [searchLoop], by simp, rfl⟩
  | cons c cs ih =>
    intro cA i st
    unfold searchLoop
    dsimp only
    by_cases hc : cA = some i
    · rw [if_pos hc]
      dsimp only
      rw [if_neg (show ¬(false = true) from by simp)]
      exact ⟨[], by simp, by simp, rfl⟩
    · rw [if_neg hc]
      by_cases hs : st.isSearching = true
      · rw [if_pos hs]
        obtain ⟨a1, ha1, hs1, hi1⟩ := hstep c st
        obtain ⟨a2, ha2, hs2, hi2⟩ := ih cA (i + 1) (step c st)
        refine ⟨a1 ++ a2, ?_, ?_, ?_⟩
        · rw [ha2, ha1, List.append_assoc]
        · rw [List.map_append]
          exact List.Sublist.append hs1 hs2
        · rw [hi2, hi1]
      · rw [if_neg hs]
        exact ⟨[], by simp, by simp, rfl⟩

/-- Properties of the finish step on any loop-result state whose index is
still −1: matches are passed through; the index becomes 0 exactly when a
match exists; and the returned counts mirror the final state. -/
theorem finishSearch_props (S : SearchState) (hS : S.currentMatchIndex = -1) :
    (finishSearch S).2.currentMatches = S.currentMatches ∧
    ((finishSearch S).2.currentMatches ≠ [] → (finishSearch S).2.currentMatchIndex = 0) ∧
    ((finishSearch S).2.currentMatches = [] → (finishSearch S).2.currentMatchIndex = -1) ∧
    (finishSearch S).1 = Except.ok ⟨(finishSearch S).2.currentMatches.length,
        (finishSearch S).2.currentMatchIndex, (finishSearch S).2.currentMatches.length⟩ := by
  unfold finishSearch
  dsimp only
  by_cases h : 0 < S.currentMatches.length
  · rw [if_pos h]
    refine ⟨rfl, fun _ => rfl, fun he => ?_, rfl⟩
    rw [he] at h
    simp at h
  · rw [if_neg h]
    refine ⟨rfl, fun hne => ?_, fun _ => hS, rfl⟩
    exact absurd (List.length_eq_zero.mp (by omega)) hne

/-- C5 amended: on any admitted, validated search, the final match list's
chunks form an order-preserving sublist of the chunk list — encounter order —
in every mode: semantic and exact traverse the chunks in order, and fuzzy
preserves the order Fuse returns, which under `shouldSort: false` is list
order, not score order (hypothesis `hfuse`).  `activeIndex` becomes 0 exactly
when a match exists and stays −1 otherwise, and the returned counts mirror
the final state. -/
theorem search_match_order_and_activeIndex (env : EmbedEnv)
    (fuse : List Chunk → String → List (Chunk × ℚ)) (st : SearchState)
    (q : String) (mode : Mode) (chunks : List Chunk) (now : ℚ) (cancelAt : Option ℕ)
    (htok : 0 < (st.rateLimiter.refill now).tokens)
    (hq2 : 2 ≤ (sanitizeInput q).length) (hq100 : (sanitizeInput q).length ≤ 100)
    (hfuse : List.Sublist ((fuse chunks (sanitizeInput q)).map Prod.fst) chunks) :
    List.Sublist ((ContentSearchManager.search env fuse st q mode chunks now cancelAt).2.currentMatches.map
        (fun m => m.chunk)) chunks ∧
    ((ContentSearchManager.search env fuse st q mode chunks now cancelAt).2.currentMatches ≠ [] →
      (ContentSearchManager.search env fuse st q mode chunks now cancelAt).2.currentMatchIndex = 0) ∧
    ((ContentSearchManager.search env fuse st q mode chunks now cancelAt).2.currentMatches = [] →
      (ContentSearchManager.search env fuse st q mode chunks now cancelAt).2.currentMatchIndex = -1) ∧
    (ContentSearchManager.search env fuse st q mode chunks now cancelAt).1 =
      Except.ok
        ⟨(ContentSearchManager.search env fuse st q mode chunks now cancelAt).2.currentMatches.length,
          (ContentSearchManager.search env fuse st q mode chunks now cancelAt).2.currentMatchIndex,
          (ContentSearchManager.search env fuse st q mode chunks now cancelAt).2.currentMatches.length⟩ := by
  have hacq : st.rateLimiter.tryAcquire now =
      (true, { st.rateLimiter.refill now with
                tokens := (st.rateLimiter.refill now).tokens - 1 }) := by
    unfold RateLimiter.tryAcquire
    rw [if_pos htok]
  have hval : validateSearchPattern (sanitizeInput q) = Except.ok (sanitizeInput q) := by
    unfold validateSearchPattern
    rw [if_neg (by omega), if_neg (by omega)]
  obtain ⟨S, hSrun, hSm, hSi⟩ : ∃ S : SearchState,
      ContentSearchManager.search env fuse st q mode chunks now cancelAt = finishSearch S ∧
      List.Sublist (S.currentMatches.map (fun m => m.chunk)) chunks ∧
      S.currentMatchIndex = -1 := by
    unfold ContentSearchManager.search
    rw [hacq]
    dsimp only
    simp only [eq_self_iff_true, not_true, if_false]
    rw [hval]
    dsimp only
    cases mode with
    | fuzzy =>
      refine ⟨_, rfl, ?_, ?_⟩
      · rw [(fuzzyPush_foldl_matches _ _).1]
        dsimp only
        rw [List.nil_append, List.map_map]
        simpa using hfuse
      · rw [(fuzzyPush_foldl_matches _ _).2]
    | exact =>
      obtain ⟨app, ha, hsub, hidx⟩ :=
        searchLoop_matches_sublist _ (fun c s => searchStepChunk_matches env q Mode.exact c s)
          chunks cancelAt 0 _
      exact ⟨_, rfl, by rw [ha]; simpa using hsub, by rw [hidx]⟩
    | semantic =>
      obtain ⟨app, ha, hsub, hidx⟩ :=
        searchLoop_matches_sublist _ (fun c s => searchStepChunk_matches env q Mode.semantic c s)
          chunks cancelAt 0 _
      exact ⟨_, rfl, by rw [ha]; simpa using hsub, by rw [hidx]⟩
  rw [hSrun]
  obtain ⟨h1, h2, h3, h4⟩ := finishSearch_props S hSi
  exact ⟨by rw [h1]; exact hSm, h2, h3, h4⟩

/-- Witness for `search_match_order_and_activeIndex`: the fuzzy run over
three chunks with the `shouldSort: false` Fuse model. -/
theorem search_match_order_witness :
    (0 < (initState.rateLimiter.refill 0).tokens ∧
      2 ≤ (sanitizeInput "ab").length ∧ (sanitizeInput "ab").length ≤ 100 ∧
      List.Sublist ((fuseCE [chunkA, chunkB, chunkC] (sanitizeInput "ab")).map Prod.fst)
        [chunkA, chunkB, chunkC]) ∧
    (List.Sublist ((ContentSearchManager.search envAll fuseCE initState "ab" Mode.fuzzy
          [chunkA, chunkB, chunkC] 0 none).2.currentMatches.map (fun m => m.chunk))
        [chunkA, chunkB, chunkC] ∧
      ((ContentSearchManager.search envAll fuseCE initState "ab" Mode.fuzzy
          [chunkA, chunkB, chunkC] 0 none).2.currentMatches ≠ [] →
        (ContentSearchManager.search envAll fuseCE initState "ab" Mode.fuzzy
          [chunkA, chunkB, chunkC] 0 none).2.currentMatchIndex = 0) ∧
      ((ContentSearchManager.search envAll fuseCE initState "ab" Mode.fuzzy
          [chunkA, chunkB, chunkC] 0 none).2.currentMatches = [] →
        (ContentSearchManager.search envAll fuseCE initState "ab" Mode.fuzzy
          [chunkA, chunkB, chunkC] 0 none).2.currentMatchIndex = -1) ∧
      (ContentSearchManager.search envAll fuseCE initState "ab" Mode.fuzzy
          [chunkA, chunkB, chunkC] 0 none).1 =
        Except.ok
          ⟨(ContentSearchManager.search envAll fuseCE initState "ab" Mode.fuzzy
              [chunkA, chunkB, chunkC] 0 none).2.currentMatches.length,
            (ContentSearchManager.search envAll fuseCE initState "ab" Mode.fuzzy
              [chunkA, chunkB, chunkC] 0 none).2.currentMatchIndex,
            (ContentSearchManager.search envAll fuseCE initState "ab" Mode.fuzzy
              [chunkA, chunkB, chunkC] 0 none).2.currentMatches.length⟩) :=
  ⟨⟨by decide, by decide, by decide, by decide⟩,
    search_match_order_and_activeIndex envAll fuseCE initState "ab" Mode.fuzzy
      [chunkA, chunkB, chunkC] 0 none (by decide) (by decide) (by decide) (by decide)⟩

/-- C5 counterexample: in fuzzy mode the match list follows Fuse's
`shouldSort: false` output order — the encounter order — not score order.
The modelled Fuse scores are 0.2, 0.3, 0.1 for the three chunks in list
order, so best-quality-first order (Fuse scores improve downwards) would be
`[chunkC, chunkA, chunkB]` and descending-numeric-score order would be
`[chunkB, chunkA, chunkC]`; the session's match list is neither. -/
theorem fuzzy_matches_not_score_ordered :
    (ContentSearchManager.search envAll fuseCE initState "ab" Mode.fuzzy
        [chunkA, chunkB, chunkC] 0 none).2.currentMatches
      = [⟨chunkA, none⟩, ⟨chunkB, none⟩, ⟨chunkC, none⟩] ∧
    (fuseCE [chunkA, chunkB, chunkC] (sanitizeInput "ab")).map Prod.snd
      = [2 / 10, 3 / 10, 1 / 10] ∧
    ([⟨chunkA, none⟩, ⟨chunkB, none⟩, ⟨chunkC, none⟩] : List MatchEntry) ≠
      [⟨chunkC, none⟩, ⟨chunkA, none⟩, ⟨chunkB, none⟩] ∧
    ([⟨chunkA, none⟩, ⟨chunkB, none⟩, ⟨chunkC, none⟩] : List MatchEntry) ≠
      [⟨chunkB, none⟩, ⟨chunkA, none⟩, ⟨chunkC, none⟩] := by
  refine ⟨by decide, by decide, by decide, by decide⟩

end GoogleFzf
